import Mathlib

/-!
Verification of the subscription inference engine of the
financial-autopilot backend (`app/subscriptions.py`, `app/models.py`).

Conventions of the shallow embedding:
* amounts (Python floats / DB `Numeric(12,2)`) are modelled exactly as `ℚ`;
* dates are modelled as `ℤ` day numbers; `timedelta(days=g)` is `+ g`;
* Python's stable `sorted` is modelled by a stable insertion sort `pySorted`;
* Python `dict`s (`Transaction.confidence`) are association lists;
* the model is per user: `recompute` receives the user's transaction list
  (as fetched by the query) and the user's existing subscription rows.
-/

namespace FinAutopilot

/-- Stable insertion of `a` into `l`: `a` goes before the first element `b`
with `le a b`.  Used to model Python's stable `sorted`. -/
def insertSorted (le : α → α → Bool) (a : α) : List α → List α
  | [] => [a]
  | b :: bs => if le a b then a :: b :: bs else b :: insertSorted le a bs

/-- Stable sort modelling Python's `sorted`: for a total `le`, ties keep
their original relative order. -/
def pySorted (le : α → α → Bool) : List α → List α
  | [] => []
  | a :: as => insertSorted le a (pySorted le as)

/-- Python's `max(a, b)` on floats (first argument wins ties). -/
def pyMaxQ (a b : ℚ) : ℚ := if b ≤ a then a else b

/-- Python's `min(a, b)` on floats (first argument wins ties). -/
def pyMinQ (a b : ℚ) : ℚ := if a ≤ b then a else b

/-- Python's `abs` on floats. -/
def pyAbsQ (q : ℚ) : ℚ := if q < 0 then -q else q

/-- Python's `max(a, b)` on ints. -/
def pyMaxI (a b : ℤ) : ℤ := if b ≤ a then a else b

/-- Python's `min(a, b)` on ints. -/
def pyMinI (a b : ℤ) : ℤ := if a ≤ b then a else b

/-- Python's `abs` on ints. -/
def pyAbsI (x : ℤ) : ℤ := if x < 0 then -x else x

/-- `max` of a list of dates, `max(dates)` in Python (callers guarantee
nonemptiness; the default on `[]` is never used there). -/
def listMax : List ℤ → ℤ
  | [] => 0
  | d :: ds => ds.foldl pyMaxI d

/-- Python `a or b` on two optional values that are truthy whenever present
(dates): `None`-coalescing. -/
def pyOr (a b : Option ℤ) : Option ℤ :=
  match a with
  | some x => some x
  | none => b

/-- Python truthiness of an optional int (`if median_gap:`):
`None` and `0` are falsy. -/
def truthy : Option ℤ → Bool
  | none => false
  | some g => g != 0

end FinAutopilot

namespace FinAutopilot

/-! ### `_normalize_vendor` (subscriptions.py lines 16-46), on `List Char` -/

/-- Whitespace for the model of `str.strip` / `str.split`. -/
def isSpc (c : Char) : Bool := c = ' ' || c = '\t' || c = '\n' || c = '\r'

/-- Model of `str.lower` on one character (ASCII case mapping). -/
def lowerChar (c : Char) : Char :=
  if 65 ≤ c.toNat ∧ c.toNat ≤ 90 then Char.ofNat (c.toNat + 32) else c

/-- `_SEPARATORS` (line 21). -/
def sepChars : List Char :=
  ['•', '·', '|', '/', '\\', ',', ';', '—', '-', '_', ':', '(', ')',
   '[', ']', Char.ofNat 123, Char.ofNat 125, '*']

/-- One `s.replace(ch, " ")` pass for every separator at once. -/
def replaceSep (c : Char) : Char := if c ∈ sepChars then ' ' else c

/-- ASCII model of `str.isdigit` on one character. -/
def isDig (c : Char) : Bool := 48 ≤ c.toNat && c.toNat ≤ 57

/-- `p.isdigit()` on a token (nonempty, all digits). -/
def isDigTok (t : List Char) : Bool := !t.isEmpty && t.all isDig

/-- `_NOISE_TOKENS` (lines 16-19). -/
def noiseTokens : List (List Char) :=
  ["payment".toList, "payments".toList, "purchase".toList, "purchases".toList,
   "receipt".toList, "invoice".toList, "order".toList, "confirm".toList,
   "confirmation".toList, "subscription".toList, "subs".toList,
   "billing".toList, "bill".toList, "charges".toList]

/-- Drop trailing whitespace: `(l.reverse.dropWhile p).reverse`. -/
def dropRightWhile (p : α → Bool) (l : List α) : List α :=
  (l.reverse.dropWhile p).reverse

/-- Model of `str.strip()`. -/
def pyStrip (l : List Char) : List Char :=
  dropRightWhile isSpc (l.dropWhile isSpc)

/-- Tokenizer accumulator: `acc` holds the current (reversed) pending token. -/
def pySplitAux : List Char → List Char → List (List Char)
  | [], acc => if acc = [] then [] else [acc.reverse]
  | c :: cs, acc =>
    if isSpc c then
      if acc = [] then pySplitAux cs [] else acc.reverse :: pySplitAux cs []
    else pySplitAux cs (c :: acc)

/-- Model of `str.split()` with no argument: split on whitespace runs,
no empty tokens. -/
def pySplit (l : List Char) : List (List Char) := pySplitAux l []

/-- `" ".join(parts)`. -/
def joinSpace : List (List Char) → List Char
  | [] => []
  | [t] => t
  | t :: ts => t ++ ' ' :: joinSpace ts

/-- `while parts and parts[-1].isdigit(): parts.pop()` (lines 41-42). -/
def dropTrailingDigits (ps : List (List Char)) : List (List Char) :=
  dropRightWhile isDigTok ps

/-- `_normalize_vendor` (lines 24-46) on `List Char`. -/
def normalizeList (l : List Char) : List Char :=
  let s1 := (pyStrip l).map lowerChar
  if s1 = [] then []
  else
    let s2 := s1.map replaceSep
    let parts := (pySplit s2).filter (fun p => !noiseTokens.contains p)
    let parts2 := dropTrailingDigits parts
    let key := pyStrip (joinSpace (parts2.take 6))
    if key = [] then s2 else key

/-- The token pipeline of `_normalize_vendor` on an input that is already
lowercased and separator-free: the tail of `normalizeList` after its two
character maps become the identity.  Used to analyse repeated application. -/
def normCore (s : List Char) : List Char :=
  if s = [] then []
  else
    let parts := (pySplit s).filter (fun p => !noiseTokens.contains p)
    let parts2 := dropTrailingDigits parts
    let key := pyStrip (joinSpace (parts2.take 6))
    if key = [] then s else key

/-- `_normalize_vendor(v)`: vendor-key normalization on `String`. -/
def _normalize_vendor (v : String) : String := String.mk (normalizeList v.toList)

example : _normalize_vendor "Spotify*Premium" = "spotify premium" := by decide
example : _normalize_vendor "-" = " " := by decide
example : _normalize_vendor " " = "" := by decide
example : _normalize_vendor "Netflix payment 1234" = "netflix" := by decide

/-! ### Data model (`app/models.py`) -/

/-- `SubscriptionStatus` (models.py lines 12-15).  The enum has exactly the
members `active`, `canceled`, `ignored`; there is no `trial` member. -/
inductive SubscriptionStatus where
  | active
  | canceled
  | ignored
deriving DecidableEq, Repr

/-- The string value of each `SubscriptionStatus` member (models.py). -/
def SubscriptionStatus.toStr : SubscriptionStatus → String
  | .active => "active"
  | .canceled => "canceled"
  | .ignored => "ignored"

/-- `getattr(SubscriptionStatus, "trial", None)` (subscriptions.py line 425):
the enum of models.py has no `trial` member, so this lookup yields `None`. -/
def statusTrialOpt : Option SubscriptionStatus := none

/-- `getattr(SubscriptionStatus, "canceled", None)` (subscriptions.py line 426). -/
def statusCanceledOpt : Option SubscriptionStatus := some .canceled

/-- `Transaction` (models.py lines 92-120), restricted to the fields the
recompute engine reads.  All members of a cluster come from the vendor
grouping, which only admits transactions with a vendor and a date. -/
structure Tx where
  id : Nat
  vendor : Option String
  amount : Option ℚ
  currency : Option String
  transaction_date : Option ℤ
  is_subscription : Bool
  trial_end_date : Option ℤ
  renewal_date : Option ℤ
  confidence : Option (List (String × ℚ))
deriving DecidableEq, Repr

/-- `Subscription.meta` as written by `recompute_subscriptions`
(subscriptions.py lines 493-519). -/
structure Meta where
  source : String
  kind : String
  vendor_key : String
  count : Nat
  flagged_count : Nat
  median_gap_days : Option ℤ
  gap_variability_days : Option ℤ
  skipped_cycles : Nat
  amount_variability : Option ℚ
  cadence_days : Option ℤ
  cadence_variance_days : Option ℤ
  predicted_next_renewal_date : Option ℤ
  predicted_is_estimated : Bool
  confidence : ℚ
  reasons : List String
  evidence_tx_ids : List Nat
deriving DecidableEq, Repr

/-- `Subscription` (models.py lines 123-144), the fields this engine writes.
The model is per user, and generated ids / timestamps are outside it. -/
structure Sub where
  vendor_name : String
  amount : Option ℚ
  currency : Option String
  billing_cycle_days : Option ℤ
  last_charge_date : Option ℤ
  next_renewal_date : Option ℤ
  trial_end_date : Option ℤ
  status : SubscriptionStatus
  meta : Meta
deriving DecidableEq, Repr

/-! ### Numeric helpers (subscriptions.py lines 49-83) -/

/-- `_amount_to_float` (lines 49-55): amounts are already exact rationals in
the model, so the conversion is the identity on present values. -/
def _amount_to_float (v : Option ℚ) : Option ℚ := v

/-- `_median` (lines 58-65). -/
def _median (nums : List ℚ) : Option ℚ :=
  if nums.isEmpty then none
  else
    let s := pySorted (fun a b => decide (a ≤ b)) nums
    let mid := nums.length / 2
    if nums.length % 2 = 1 then some (s.getD mid 0)
    else some ((s.getD (mid - 1) 0 + s.getD mid 0) / 2)

/-- `_MIN_EVIDENCE_CONFIDENCE` (line 68). -/
def _MIN_EVIDENCE_CONFIDENCE : ℚ := 1 / 2

/-- `dict.get` on the per-field confidence map. -/
def lookupConf : List (String × ℚ) → String → Option ℚ
  | [], _ => none
  | (k, v) :: rest, key => if k = key then some v else lookupConf rest key

/-- `_meets_confidence` (lines 71-83).  A missing map, a missing key, or an
unparseable value all pass; values are already rationals in the model, so the
`float(value)` failure branch is unreachable. -/
def _meets_confidence (t : Tx) (key : String) (minimum : Option ℚ) : Bool :=
  match minimum with
  | none => true
  | some m =>
    match t.confidence with
    | none => true
    | some entries =>
      match lookupConf entries key with
      | none => true
      | some v => decide (m ≤ v)

/-! ### `_cluster_by_amount` (subscriptions.py lines 86-137) -/

/-- `abs_tol = 1.0` (line 89). -/
def absTol : ℚ := 1

/-- `pct_tol = 0.05` (line 90). -/
def pctTol : ℚ := 5 / 100

/-- `with_amount`: pairs `(t, amount)` for members with a parsed amount
(lines 96-97). -/
def withAmounts (items : List Tx) : List (Tx × ℚ) :=
  items.filterMap fun t =>
    match _amount_to_float t.amount with
    | some a => some (t, a)
    | none => none

/-- State of the left-to-right clustering walk (lines 105-107). -/
structure CState where
  clusters : List (List Tx)
  cur : List Tx
  curCenter : Option ℚ
deriving Repr

/-- One step of the walk (lines 109-123): join the current cluster when
within `max(abs_tol, |center| * pct_tol)` of the running-mean center,
otherwise start a new cluster. -/
def clusterStep (st : CState) (p : Tx × ℚ) : CState :=
  match st.curCenter with
  | none => { st with cur := [p.1], curCenter := some p.2 }
  | some c =>
    let tol := pyMaxQ absTol (pyAbsQ c * pctTol)
    if pyAbsQ (p.2 - c) ≤ tol then
      { st with
        cur := st.cur ++ [p.1],
        curCenter := some ((c * st.cur.length + p.2) / (st.cur.length + 1)) }
    else
      { clusters := st.clusters ++ [st.cur], cur := [p.1], curCenter := some p.2 }

/-- Length of the longest cluster. -/
def maxLenOf (cs : List (List Tx)) : Nat := (cs.map List.length).foldl max 0

/-- `max(clusters, key=len).extend(no_amount)` (lines 132-133): Python's
`max` returns the first cluster of maximal length, mutated in place. -/
def replaceFirstLongest (m : Nat) (extra : List Tx) : List (List Tx) → List (List Tx)
  | [] => []
  | c :: cs => if c.length = m then (c ++ extra) :: cs else c :: replaceFirstLongest m extra cs

/-- `_cluster_by_amount` (lines 86-137) with the default tolerances. -/
def _cluster_by_amount (items : List Tx) : List (List Tx) :=
  let wa := withAmounts items
  if wa.isEmpty then [items]
  else
    let sortedWa := pySorted (fun p q => decide (p.2 ≤ q.2)) wa
    let fin := sortedWa.foldl clusterStep ⟨[], [], none⟩
    let clusters := if fin.cur.isEmpty then fin.clusters else fin.clusters ++ [fin.cur]
    let no_amount := items.filter fun t => (_amount_to_float t.amount).isNone
    if no_amount.isEmpty then clusters
    else if clusters.isEmpty then [no_amount]
    else replaceFirstLongest (maxLenOf clusters) no_amount clusters

/-! ### Cadence helpers (subscriptions.py lines 144-211) -/

/-- `_pick_display_vendor` (lines 144-148): most frequent truthy raw vendor
string; `Counter.most_common` keeps first-encounter order on ties. -/
def vendorNamesOf (items : List Tx) : List String :=
  items.filterMap fun t =>
    match t.vendor with
    | some v => if v = "" then none else some v
    | none => none

/-- Occurrence count of `v` in `xs`. -/
def countOf (xs : List String) (v : String) : Nat := (xs.filter (· = v)).length

/-- First value of maximal multiplicity, in first-occurrence order. -/
def mostCommon (xs : List String) : Option String :=
  xs.dedup.foldl
    (fun best v =>
      match best with
      | none => some v
      | some b => if countOf xs b < countOf xs v then some v else some b)
    none

/-- `_pick_display_vendor` (lines 144-148). -/
def _pick_display_vendor (items : List Tx) : Option String :=
  mostCommon (vendorNamesOf items)

/-- `_date_list` (lines 151-152): sorted distinct transaction dates. -/
def _date_list (items : List Tx) : List ℤ :=
  pySorted (fun a b => decide (a ≤ b)) (items.filterMap (·.transaction_date)).dedup

/-- Consecutive gaps `dates[i] - dates[i-1]` (line 158). -/
def gapsOf (dates : List ℤ) : List ℤ :=
  List.zipWith (fun a b => a - b) (dates.drop 1) dates

/-- The positive gaps kept by the filter `g > 0` (line 159). -/
def posGapsOf (dates : List ℤ) : List ℤ := (gapsOf dates).filter (fun g => decide (0 < g))

/-- `sorted(gaps)[len(gaps) // 2]` (line 162). -/
def gapsMedian (gs : List ℤ) : ℤ :=
  (pySorted (fun a b => decide (a ≤ b)) gs).getD (gs.length / 2) 0

/-- `_median_gap_days` (lines 155-162). -/
def _median_gap_days (dates : List ℤ) : Option ℤ :=
  if dates.length < 2 then none
  else if posGapsOf dates = [] then none
  else some (gapsMedian (posGapsOf dates))

/-- `_gap_variability_days` (lines 165-173). -/
def _gap_variability_days (dates : List ℤ) (median_gap : ℤ) : Option ℤ :=
  if dates.length < 3 ∨ median_gap = 0 then none
  else if posGapsOf dates = [] then none
  else some (gapsMedian ((posGapsOf dates).map (fun g => pyAbsI (g - median_gap))))

/-- `_gap_skipped_cycles` (lines 176-184); `int(median_gap * 1.5)` truncates,
which for the positive gaps in play is `(3 * g) / 2` on `ℤ`. -/
def _gap_skipped_cycles (dates : List ℤ) (median_gap : ℤ) : Nat :=
  if dates.length < 2 ∨ median_gap = 0 then 0
  else if posGapsOf dates = [] then 0
  else ((posGapsOf dates).filter (fun g => decide ((3 * median_gap) / 2 < g))).length

/-- `_amount_variability` (lines 187-196). -/
def _amount_variability (amounts : List ℚ) : Option ℚ :=
  if amounts.length < 2 then none
  else
    match _median amounts with
    | none => none
    | some med =>
      let dev := amounts.map (fun a => pyAbsQ (a - med))
      if dev.isEmpty then none
      else some ((pySorted (fun a b => decide (a ≤ b)) dev).getD (dev.length / 2) 0)

/-- The bounded roll-forward loop of `_roll_forward` (lines 207-210). -/
def rollIter : Nat → ℤ → ℤ → ℤ → ℤ
  | 0, d, _, _ => d
  | n + 1, d, gap, today => if today ≤ d then d else rollIter n (d + gap) gap today

/-- `_roll_forward` (lines 199-211). -/
def _roll_forward (dateVal : Option ℤ) (gapDays : ℤ) (today : ℤ) : Option ℤ :=
  match dateVal with
  | none => none
  | some d => if gapDays = 0 then none else some (rollIter 24 d gapDays today)

/-! ### `_confidence_and_reasons` (subscriptions.py lines 214-274) -/

/-- `_confidence_and_reasons` (lines 214-274).  Dates are rendered as day
numbers in the recency reason (the source prints `last_date.isoformat()`). -/
def _confidence_and_reasons (dates : List ℤ) (median_gap : Option ℤ)
    (variability : Option ℤ) (amount_variability : Option ℚ)
    (skipped_cycles : Nat) (flagged_count : Nat) (last_date : Option ℤ)
    (amount_median : Option ℚ) : ℚ × List String :=
  let n := dates.length
  let (s1, r1) : ℚ × List String :=
    if 3 ≤ n then (45 / 100, [s!"Found {n} charges for this vendor."])
    else if n = 2 then (25 / 100, ["Found 2 charges for this vendor."])
    else (0, ["Only 1 charge found (lower confidence)."])
  let (s2, r2) : ℚ × List String :=
    if truthy median_gap then
      let g := median_gap.getD 0
      let base : ℚ × List String := (15 / 100, [s!"Median interval between charges is ~{g} days."])
      match variability with
      | none => base
      | some v =>
        if v ≤ 3 then (base.1 + 15 / 100, base.2 ++ ["Charge interval is consistent (low variance)."])
        else if v ≤ 7 then (base.1 + 8 / 100, base.2 ++ ["Charge interval is moderately consistent."])
        else (base.1, base.2 ++ ["Charge interval varies a lot (lower confidence)."])
    else (0, [])
  let (s3, r3) : ℚ × List String :=
    if 0 < flagged_count then
      (15 / 100, ["At least one email/transaction was flagged as subscription/trial/renewal."])
    else (0, [])
  let (s4, r4) : ℚ × List String :=
    match last_date with
    | some d => (10 / 100, [s!"Most recent charge on day {d}."])
    | none => (0, [])
  let (s5, r5) : ℚ × List String :=
    match amount_median with
    | none => (0, [])
    | some med =>
      let base : ℚ × List String := (5 / 100, ["Charge amount is available."])
      match amount_variability with
      | none => base
      | some av =>
        if av ≤ pyMaxQ (1 / 2) (med * (3 / 100)) then
          (base.1 + 5 / 100, base.2 ++ ["Charge amounts are consistent."])
        else (base.1, base.2 ++ ["Charge amounts vary across cycles."])
  let r6 : List String :=
    if 0 < skipped_cycles then [s!"{skipped_cycles} longer-than-usual gap(s) in charges detected."]
    else []
  let score := s1 + s2 + s3 + s4 + s5
  (pyMaxQ 0 (pyMinQ 1 score), r1 ++ r2 ++ r3 ++ r4 ++ r5 ++ r6)

/-! ### `recompute_subscriptions` (subscriptions.py lines 277-530) -/

/-- Key of the ignore-set: `(VendorKey(vendor_name), amount, currency)`
(lines 307-311). -/
abbrev IgnKey := String × Option ℚ × Option String

/-- The key under which an existing subscription row is matched
(lines 308-311).  No rounding is applied to the stored amount. -/
def subIgnKey (s : Sub) : IgnKey :=
  (_normalize_vendor s.vendor_name, _amount_to_float s.amount, s.currency)

/-- The ignore-set built from the user's `ignored` subscriptions
(lines 301-311). -/
def ignoredKeysOf (subs : List Sub) : List IgnKey :=
  (subs.filter fun s => s.status = .ignored).map subIgnKey

/-- `flagged` (lines 354-359): members carrying `is_subscription`,
`trial_end_date` or `renewal_date`. -/
def flaggedOf (items : List Tx) : List Tx :=
  items.filter fun t =>
    t.is_subscription || t.trial_end_date.isSome || t.renewal_date.isSome

/-- `amount_evidence` (lines 361-365). -/
def amountEvidence (items : List Tx) : Bool :=
  items.any fun t =>
    t.amount.isSome && _meets_confidence t "amount" (some _MIN_EVIDENCE_CONFIDENCE)

/-- `trial_evidence` (lines 366-370). -/
def trialEvidence (items : List Tx) : Bool :=
  items.any fun t =>
    t.trial_end_date.isSome && _meets_confidence t "date" (some _MIN_EVIDENCE_CONFIDENCE)

/-- `renewal_evidence` (lines 371-375). -/
def renewalEvidence (items : List Tx) : Bool :=
  items.any fun t =>
    t.renewal_date.isSome && _meets_confidence t "date" (some _MIN_EVIDENCE_CONFIDENCE)

/-- `median_gap` after the `[7, 400]` plausibility guard (lines 379-382). -/
def cadenceOf (dates : List ℤ) : Option ℤ :=
  match _median_gap_days dates with
  | none => none
  | some g => if g < 7 ∨ 400 < g then none else some g

/-- `next_renewal` from explicit renewal dates: latest distinct
`renewal_date >= today` among flagged members (lines 398-402). -/
def explicitRenewalOf (today : ℤ) (flagged : List Tx) : Option ℤ :=
  (pySorted (fun a b => decide (b ≤ a)) (flagged.filterMap (·.renewal_date)).dedup).find?
    (fun d => decide (today ≤ d))

/-- `trial_end`: latest distinct `trial_end_date >= today` among flagged
members (lines 405-409). -/
def trialEndOf (today : ℤ) (flagged : List Tx) : Option ℤ :=
  (pySorted (fun a b => decide (b ≤ a)) (flagged.filterMap (·.trial_end_date)).dedup).find?
    (fun d => decide (today ≤ d))

/-- Steps 1-3 of the next-renewal choice (lines 396-416): explicit renewal
first, else the cadence projection (marking it estimated). -/
def nextRenewalAndEst (today : ℤ) (flagged : List Tx) (median_gap : Option ℤ)
    (last_date : ℤ) : Option ℤ × Bool :=
  match explicitRenewalOf today flagged, median_gap with
  | none, some g => (_roll_forward (some (last_date + g)) g today, true)
  | r, _ => (r, false)

/-- Status assignment (lines 423-443), returning `(status, meta.kind)`.
`status_trial` is `None` for this enum, so the trial branch stores
`active`. -/
def statusKindOf (today : ℤ) (trial_end : Option ℤ) (nDates : Nat)
    (median_gap : Option ℤ) (last_date : ℤ) : SubscriptionStatus × String :=
  if trial_end.isSome ∧ nDates ≤ 1 then (statusTrialOpt.getD .active, "trial")
  else
    let active_window : ℤ :=
      if truthy median_gap then pyMaxI 45 (pyMinI 730 (median_gap.getD 0 * 2)) else 60
    if active_window < today - last_date then (statusCanceledOpt.getD .active, "inactive")
    else (.active, "active")

/-- `evidence_tx_ids` (lines 462-470): ids of the 8 most recent members
(stable sort, newest first).  Cluster members always carry a date, and ids
are always present in the model. -/
def evidenceIdsOf (today : ℤ) (items : List Tx) : List Nat :=
  ((pySorted
      (fun a b => decide (b.transaction_date.getD today ≤ a.transaction_date.getD today))
      items).take 8).map (·.id)

/-- First truthy currency in the cluster (line 473). -/
def currencyOf (items : List Tx) : Option String :=
  items.findSome? fun t =>
    match t.currency with
    | some c => if c = "" then none else some c
    | none => none

/-- The Subscription row built at lines 391-521 once a cluster passes every
gate; all derived values are recomputed from the cluster. -/
def buildSub (today : ℤ) (vendor_key : String) (cluster_items : List Tx) : Sub :=
  let amounts := (cluster_items.map fun t => _amount_to_float t.amount).reduceOption
  let amount_median := _median amounts
  let dates := _date_list cluster_items
  let flagged := flaggedOf cluster_items
  let median_gap := cadenceOf dates
  let variability :=
    if truthy median_gap then _gap_variability_days dates (median_gap.getD 0) else none
  let skipped_cycles :=
    if truthy median_gap then _gap_skipped_cycles dates (median_gap.getD 0) else 0
  let last_date := listMax dates
  let trial_end := trialEndOf today flagged
  let nr := nextRenewalAndEst today flagged median_gap last_date
  let sk := statusKindOf today trial_end dates.length median_gap last_date
  let amount_variability := if amounts.isEmpty then none else _amount_variability amounts
  let cr := _confidence_and_reasons dates median_gap variability amount_variability
    skipped_cycles flagged.length (some last_date) amount_median
  { vendor_name := (_pick_display_vendor cluster_items).getD vendor_key,
    amount := amount_median,
    currency := currencyOf cluster_items,
    billing_cycle_days := median_gap,
    last_charge_date := some last_date,
    next_renewal_date := pyOr nr.1 trial_end,
    trial_end_date := trial_end,
    status := sk.1,
    meta :=
      { source := "recompute_v2",
        kind := sk.2,
        vendor_key := vendor_key,
        count := cluster_items.length,
        flagged_count := flagged.length,
        median_gap_days := median_gap,
        gap_variability_days := variability,
        skipped_cycles := skipped_cycles,
        amount_variability := amount_variability,
        cadence_days := median_gap,
        cadence_variance_days := variability,
        predicted_next_renewal_date :=
          if nr.2 ∧ nr.1 ≠ none then nr.1 else none,
        predicted_is_estimated := nr.2,
        confidence := cr.1,
        reasons := cr.2.take 8,
        evidence_tx_ids := evidenceIdsOf today cluster_items } }

/-- The body of the per-cluster loop (lines 339-522): decide whether the
cluster becomes a subscription and build the row. -/
def processCluster (today : ℤ) (ignoredKeys : List IgnKey) (vendor_key : String)
    (vendor_currency : Option String) (cluster_items : List Tx) : Option Sub :=
  let amounts := (cluster_items.map fun t => _amount_to_float t.amount).reduceOption
  let amount_median := _median amounts
  if (vendor_key, amount_median, vendor_currency) ∈ ignoredKeys then none
  else
    let dates := _date_list cluster_items
    if dates.isEmpty then none
    else
      let trial_ev := trialEvidence cluster_items
      let renewal_ev := renewalEvidence cluster_items
      let concrete_ev := amountEvidence cluster_items || trial_ev || renewal_ev
      let median_gap := cadenceOf dates
      if dates.length = 1 ∧ ¬(trial_ev || renewal_ev) then none
      else if dates.length ≠ 1 ∧ median_gap = none ∧ ¬concrete_ev then none
      else
        let flagged := flaggedOf cluster_items
        let last_date := listMax dates
        let nr := nextRenewalAndEst today flagged median_gap last_date
        if nr.1.isNone ∧ flagged.isEmpty then none
        else some (buildSub today vendor_key cluster_items)

/-- Insertion-ordered grouping by `(VendorKey(vendor), currency)`
(lines 313-321).  A transaction with a falsy vendor or no date is skipped. -/
def addToGroups (gs : List ((String × Option String) × List Tx))
    (k : String × Option String) (t : Tx) : List ((String × Option String) × List Tx) :=
  match gs with
  | [] => [(k, [t])]
  | (k', ts) :: rest =>
    if k' = k then (k', ts ++ [t]) :: rest else (k', ts) :: addToGroups rest k t

/-- `vendor_groups` (lines 313-321). -/
def vendorGroupsOf (txs : List Tx) : List ((String × Option String) × List Tx) :=
  txs.foldl
    (fun gs t =>
      match t.vendor, t.transaction_date with
      | some v, some _ =>
        if v = "" then gs else addToGroups gs (_normalize_vendor v, t.currency) t
      | _, _ => gs)
    []

/-- The subscriptions created by one pass (lines 330-522): every vendor
group with a truthy key, split into amount clusters, each run through
`processCluster`. -/
def createdSubs (today : ℤ) (ignoredKeys : List IgnKey) (txs : List Tx) : List Sub :=
  ((vendorGroupsOf txs).map fun g =>
    if g.1.1 = "" then []
    else (_cluster_by_amount g.2).filterMap (processCluster today ignoredKeys g.1.1 g.1.2)).flatten

/-- `recompute_subscriptions` (lines 277-530) as a state transformer on the
user's subscription rows: `ignored` rows are kept, all other rows are
deleted, and the freshly created rows are inserted. -/
def recompute (today : ℤ) (txs : List Tx) (subs : List Sub) : List Sub :=
  let kept := subs.filter fun s => s.status = .ignored
  kept ++ createdSubs today (ignoredKeysOf subs) txs

/-! ### Spec-side definition for the ignore-key claim -/

/-- Modelled from the spec: Python's `round` to the nearest integer with
ties to even, as in `round(amount, 2)`'s inner rounding step. -/
def pyRoundInt (q : ℚ) : ℤ :=
  let f := ⌊q⌋
  let r := q - f
  if r < 1 / 2 then f
  else if 1 / 2 < r then f + 1
  else if f % 2 = 0 then f else f + 1

/-- Modelled from the spec: `round(amount, 2)`, the rounding the spec says
the ignore-set key applies to the cluster's median amount.  The source
applies no such rounding. -/
def specRound2 (q : ℚ) : ℚ := (pyRoundInt (q * 100) : ℚ) / 100

/-! ### Concrete sample data used by witnesses and counterexamples -/

/-- Build a transaction with an empty confidence map. -/
def mkTx (i : Nat) (v : Option String) (a : Option ℚ) (cur : Option String)
    (d : Option ℤ) (issub : Bool) (te re : Option ℤ) : Tx :=
  { id := i, vendor := v, amount := a, currency := cur, transaction_date := d,
    is_subscription := issub, trial_end_date := te, renewal_date := re,
    confidence := none }

/-- A single transaction whose only evidence is `trial_end_date = today + 5`
(for `today = 100`). -/
def txTrial : Tx := mkTx 1 (some "v") none none (some 100) false (some 105) none

/-- A single transaction with no flags at all. -/
def txPlain : Tx := mkTx 2 (some "v") none none (some 100) false none none

/-- An `ignored` subscription row for `(netflix, 10.00, USD)`, as the
explicit ignore action leaves it (the DB column stores two decimals). -/
def m0 : Meta :=
  { source := "", kind := "", vendor_key := "", count := 0, flagged_count := 0,
    median_gap_days := none, gap_variability_days := none, skipped_cycles := 0,
    amount_variability := none, cadence_days := none, cadence_variance_days := none,
    predicted_next_renewal_date := none, predicted_is_estimated := false,
    confidence := 0, reasons := [], evidence_tx_ids := [] }

/-- See `m0`. -/
def ignSub : Sub :=
  { vendor_name := "Netflix", amount := some 10, currency := some "USD",
    billing_cycle_days := none, last_charge_date := none, next_renewal_date := none,
    trial_end_date := none, status := .ignored, meta := m0 }

/-- Netflix charge of `10.00` on day 0. -/
def nfTx1 : Tx := mkTx 1 (some "Netflix") (some 10) (some "USD") (some 0) false none none

/-- Netflix charge of `10.01` on day 30; the cluster median with `nfTx1`
is `10.005`, which rounds to `10.00`. -/
def nfTx2 : Tx := mkTx 2 (some "Netflix") (some (1001 / 100)) (some "USD") (some 30) false none none

/-- Charge on day 0 carrying `trial_end_date = 40`. -/
def cadTx1 : Tx := mkTx 1 (some "v") none none (some 0) false (some 40) none

/-- Plain charge on day 30 (gives the cluster a 30-day cadence). -/
def cadTx2 : Tx := mkTx 2 (some "v") none none (some 30) false none none

/-- Charges of `0.00`, `1.00`, `2.00`: the greedy walk separates the `1.00`
and `2.00` charges although they differ by exactly `1.0`. -/
def amtTx (i : Nat) (a : ℚ) : Tx :=
  mkTx i (some "v") (some a) none (some (i : ℤ)) false none none

/-- A pair of transactions for the two-transaction clustering witness. -/
def pairTx1 : Tx := mkTx 1 (some "v") (some 10) none (some 0) false none none

/-- See `pairTx1`. -/
def pairTx2 : Tx := mkTx 2 (some "v") (some (21 / 2)) none (some 30) false none none

/-- A transaction carrying an explicit future renewal date. -/
def renTx : Tx := mkTx 1 (some "v") none none (some 0) true none (some 50)

/-! ## Helper lemmas -/

/-- The clamp `max(0.0, min(1.0, score))` is nonnegative. -/
theorem clamp_nonneg (s : ℚ) : 0 ≤ pyMaxQ 0 (pyMinQ 1 s) := by
  unfold pyMaxQ pyMinQ
  split_ifs <;> linarith

/-- The clamp `max(0.0, min(1.0, score))` is at most one. -/
theorem clamp_le_one (s : ℚ) : pyMaxQ 0 (pyMinQ 1 s) ≤ 1 := by
  unfold pyMaxQ pyMinQ
  split_ifs <;> linarith

/-! ## Claim C4: cadence production -/

/-- C4, counterexample: for the two-date set `{0, 30}` only one positive gap
remains, yet `median_gap_days` is produced (it is `30`), contradicting the
claim that at least 2 valid positive gaps are required. -/
theorem C4_counterexample :
    (cadenceOf [0, 30]).isSome = true ∧ ¬ 2 ≤ (posGapsOf [0, 30]).length := by
  decide

/-- C4 (amended): a non-null `median_gap_days` is produced iff the date list
has at least 2 entries, at least ONE valid positive gap remains after
filtering out non-positive gaps, and the median of those gaps lies within
`[7, 400]` days; otherwise it is null. -/
theorem C4_amended (dates : List ℤ) :
    (cadenceOf dates).isSome ↔
      2 ≤ dates.length ∧ posGapsOf dates ≠ [] ∧
      7 ≤ gapsMedian (posGapsOf dates) ∧ gapsMedian (posGapsOf dates) ≤ 400 := by
  unfold cadenceOf _median_gap_days
  by_cases h1 : dates.length < 2
  · rw [if_pos h1]
    simp
    omega
  · rw [if_neg h1]
    by_cases h2 : posGapsOf dates = []
    · rw [if_pos h2]
      simp [h2]
    · rw [if_neg h2]
      by_cases h3 : gapsMedian (posGapsOf dates) < 7 ∨ 400 < gapsMedian (posGapsOf dates)
      · simp only [if_pos h3, Option.isSome_none, Bool.false_eq_true, false_iff]
        intro hc
        omega
      · simp only [if_neg h3, Option.isSome_some, true_iff]
        refine ⟨by omega, h2, by omega, by omega⟩

/-! ## Claim C7: confidence range and zero evidence -/

/-- C7, counterexample: the zero-evidence input does not return an empty
reasons list — it returns the single reason
`"Only 1 charge found (lower confidence)."`. -/
theorem C7_counterexample :
    (_confidence_and_reasons [] none none none 0 0 none none).2 ≠ [] := by
  decide

/-- C7 (amended): for every evidence combination the returned confidence
lies in `[0, 1]`, and the zero-evidence input returns the minimal score `0`
without erroring — but with one low-confidence reason rather than an empty
reasons list. -/
theorem C7_amended :
    (∀ dates median_gap variability amount_variability skipped_cycles
        flagged_count last_date amount_median,
        0 ≤ (_confidence_and_reasons dates median_gap variability
              amount_variability skipped_cycles flagged_count last_date
              amount_median).1 ∧
        (_confidence_and_reasons dates median_gap variability
              amount_variability skipped_cycles flagged_count last_date
              amount_median).1 ≤ 1) ∧
    _confidence_and_reasons [] none none none 0 0 none none =
      (0, ["Only 1 charge found (lower confidence)."]) := by
  constructor
  · intro dates median_gap variability amount_variability skipped_cycles
      flagged_count last_date amount_median
    exact ⟨clamp_nonneg _, clamp_le_one _⟩
  · norm_num [_confidence_and_reasons, truthy, pyMaxQ, pyMinQ]

/-! ## Claim C10: non-empty output for non-blank input -/

/-- The normalizer never returns the empty list on input whose trimmed form
is non-empty: the fallback keeps the lowercased, separator-replaced input. -/
theorem normalizeList_ne_nil (l : List Char) (h : pyStrip l ≠ []) :
    normalizeList l ≠ [] := by
  intro hEq
  simp only [normalizeList] at hEq
  by_cases hs1 : (pyStrip l).map lowerChar = []
  · exact h (List.map_eq_nil_iff.mp hs1)
  · rw [if_neg hs1] at hEq
    by_cases hk : pyStrip (joinSpace ((dropTrailingDigits
        ((pySplit (((pyStrip l).map lowerChar).map replaceSep)).filter
          (fun p => !noiseTokens.contains p))).take 6)) = []
    · rw [if_pos hk] at hEq
      exact hs1 (List.map_eq_nil_iff.mp hEq)
    · rw [if_neg hk] at hEq
      exact hk hEq

/-- C10: if the trimmed input is non-empty, `_normalize_vendor` returns a
non-empty string — the fallback returns the lowercased, separator-replaced
input when token filtering drops every token. -/
theorem C10_nonempty (v : String) (h : pyStrip v.toList ≠ []) :
    _normalize_vendor v ≠ "" := by
  intro hEq
  exact normalizeList_ne_nil v.toList h (congrArg String.data hEq)

/-- C10, witness at `"-"`: trimmed input non-empty, output `" "` non-empty. -/
theorem C10_witness : pyStrip "-".toList ≠ [] ∧ _normalize_vendor "-" ≠ "" :=
  ⟨by decide, C10_nonempty "-" (by decide)⟩

/-! ## Claim C6: amount clustering tolerance -/

/-- C6, counterexample: amounts `0.00`, `1.00`, `2.00` in one vendor group.
The `1.00` and `2.00` charges differ by exactly `1.0`, which is at most
`max(1.0, 0.05 × m)` for EVERY candidate median `m`, yet the greedy walk
separates them: after `0.00` and `1.00` merge, the running center `0.5`
rejects `2.00`. -/
theorem C6_counterexample :
    _cluster_by_amount [amtTx 0 0, amtTx 1 1, amtTx 2 2] =
      [[amtTx 0 0, amtTx 1 1], [amtTx 2 2]] ∧
    (amtTx 1 1).amount = some 1 ∧ (amtTx 2 2).amount = some 2 ∧
    (2 : ℚ) - 1 ≤ absTol := by
  refine ⟨?_, rfl, rfl, by norm_num [absTol]⟩
  norm_num [_cluster_by_amount, withAmounts, _amount_to_float, amtTx, mkTx, pySorted,
    insertSorted, clusterStep, pyMaxQ, pyAbsQ, absTol, pctTol, List.filterMap, List.foldl,
    List.filter]

/-- C6 (amended): for an input of exactly two transactions with parsed
amounts `a ≤ b`, they are placed in the same cluster iff
`b - a ≤ max(1.0, 0.05 × |a|)` — the tolerance is measured from the running
center (the smaller amount), not from the cluster median; with three or more
transactions the drifting running mean gives no such guarantee. -/
theorem C6_amended (t1 t2 : Tx) (a b : ℚ) (h1 : t1.amount = some a)
    (h2 : t2.amount = some b) (hab : a ≤ b) :
    _cluster_by_amount [t1, t2] =
      if b - a ≤ pyMaxQ absTol (pyAbsQ a * pctTol) then [[t1, t2]]
      else [[t1], [t2]] := by
  have habs : pyAbsQ (b - a) = b - a := by
    unfold pyAbsQ
    rw [if_neg (by linarith)]
  have hwa : withAmounts [t1, t2] = [(t1, a), (t2, b)] := by
    simp [withAmounts, _amount_to_float, h1, h2]
  have hno : ([t1, t2].filter (fun t => (_amount_to_float t.amount).isNone)) = [] := by
    simp [List.filter, _amount_to_float, h1, h2]
  by_cases hc : b - a ≤ pyMaxQ absTol (pyAbsQ a * pctTol)
  · rw [if_pos hc]
    simp only [_cluster_by_amount, hwa, hno, pySorted, insertSorted, clusterStep,
      List.isEmpty_cons, List.foldl, decide_eq_true_eq, hab, if_true, habs, hc,
      List.isEmpty_nil]
    simp [hab]
  · rw [if_neg hc]
    simp only [_cluster_by_amount, hwa, hno, pySorted, insertSorted, clusterStep,
      List.isEmpty_cons, List.foldl, decide_eq_true_eq, hab, if_true, habs, hc,
      List.isEmpty_nil]
    simp [hab, hc]

/-- C6, witness: amounts `10` and `10.5` differ by `0.5 ≤ max(1, 0.05×10)`,
so the two transactions share one cluster. -/
theorem C6_witness : _cluster_by_amount [pairTx1, pairTx2] = [[pairTx1, pairTx2]] := by
  have h := C6_amended pairTx1 pairTx2 10 (21 / 2) rfl rfl (by norm_num)
  rw [h, if_pos]
  norm_num [pyMaxQ, pyAbsQ, absTol, pctTol]

/-! ## Inversion of the per-cluster loop -/

/-- If the per-cluster loop emits a subscription, the emitted row is
`buildSub` and every gate was passed. -/
theorem processCluster_inv {today : ℤ} {ik : List IgnKey} {vk : String}
    {vc : Option String} {items : List Tx} {s : Sub}
    (h : processCluster today ik vk vc items = some s) :
    s = buildSub today vk items ∧
    (vk, _median ((items.map fun t => _amount_to_float t.amount).reduceOption), vc) ∉ ik ∧
    _date_list items ≠ [] ∧
    ((_date_list items).length = 1 →
      (trialEvidence items || renewalEvidence items) = true) ∧
    ((_date_list items).length ≠ 1 → cadenceOf (_date_list items) = none →
      (amountEvidence items || trialEvidence items || renewalEvidence items) = true) ∧
    ((nextRenewalAndEst today (flaggedOf items) (cadenceOf (_date_list items))
        (listMax (_date_list items))).1 = none → flaggedOf items ≠ []) := by
  simp only [processCluster] at h
  split at h
  · cases h
  · split at h
    · cases h
    · split at h
      · cases h
      · split at h
        · cases h
        · split at h
          · cases h
          · rename_i hmem hempty hg1 hg2 hg3
            injection h with h
            refine ⟨h.symm, hmem, ?_, ?_, ?_, ?_⟩
            · intro hnil
              exact hempty (by simp [hnil])
            · intro hlen
              by_contra hev
              exact hg1 ⟨hlen, by simp [hev]⟩
            · intro hlen hcad
              by_contra hev
              exact hg2 ⟨hlen, hcad, by simp [hev]⟩
            · intro hnr hfl
              exact hg3 ⟨by simp [hnr], by simp [hfl]⟩

/-- The `next_renewal_date` field of an emitted row (line 490:
`next_renewal or trial_end`). -/
theorem buildSub_next_renewal (today : ℤ) (vk : String) (items : List Tx) :
    (buildSub today vk items).next_renewal_date =
      pyOr (nextRenewalAndEst today (flaggedOf items) (cadenceOf (_date_list items))
        (listMax (_date_list items))).1 (trialEndOf today (flaggedOf items)) := rfl

/-- The `predicted_is_estimated` flag of an emitted row. -/
theorem buildSub_est (today : ℤ) (vk : String) (items : List Tx) :
    (buildSub today vk items).meta.predicted_is_estimated =
      (nextRenewalAndEst today (flaggedOf items) (cadenceOf (_date_list items))
        (listMax (_date_list items))).2 := rfl

/-- The `status` field of an emitted row. -/
theorem buildSub_status (today : ℤ) (vk : String) (items : List Tx) :
    (buildSub today vk items).status =
      (statusKindOf today (trialEndOf today (flaggedOf items)) (_date_list items).length
        (cadenceOf (_date_list items)) (listMax (_date_list items))).1 := rfl

/-- The `meta.kind` field of an emitted row. -/
theorem buildSub_kind (today : ℤ) (vk : String) (items : List Tx) :
    (buildSub today vk items).meta.kind =
      (statusKindOf today (trialEndOf today (flaggedOf items)) (_date_list items).length
        (cadenceOf (_date_list items)) (listMax (_date_list items))).2 := rfl

/-- The stored `trial_end_date` of an emitted row. -/
theorem buildSub_trial_end (today : ℤ) (vk : String) (items : List Tx) :
    (buildSub today vk items).trial_end_date = trialEndOf today (flaggedOf items) := rfl

/-- The status assignment never yields `ignored`: the trial branch stores
`active` (no `trial` member), the rest stores `canceled` or `active`. -/
theorem statusKindOf_fst_ne_ignored (today : ℤ) (te : Option ℤ) (n : Nat)
    (mg : Option ℤ) (ld : ℤ) : (statusKindOf today te n mg ld).1 ≠ .ignored := by
  intro hC
  unfold statusKindOf at hC
  split at hC
  · simp [statusTrialOpt] at hC
  · simp only [] at hC
    split at hC <;> split at hC <;> simp [statusCanceledOpt] at hC

/-- Every row created by a pass carries status `active` or `canceled`,
never `ignored`. -/
theorem createdSubs_status_ne_ignored {today : ℤ} {ik : List IgnKey} {txs : List Tx}
    {s : Sub} (hs : s ∈ createdSubs today ik txs) : s.status ≠ .ignored := by
  unfold createdSubs at hs
  simp only [List.mem_flatten, List.mem_map] at hs
  obtain ⟨l, ⟨g, hg, hl⟩, hmem⟩ := hs
  subst hl
  by_cases hvk : g.1.1 = ""
  · rw [if_pos hvk] at hmem
    cases hmem
  · rw [if_neg hvk] at hmem
    simp only [List.mem_filterMap] at hmem
    obtain ⟨c, _, hpc⟩ := hmem
    rw [(processCluster_inv hpc).1, buildSub_status]
    exact statusKindOf_fst_ne_ignored _ _ _ _ _

/-- The recompute pass leaves the user's `ignored` rows exactly unchanged:
they are excluded from the delete and never re-created. -/
theorem recompute_filter_ignored (today : ℤ) (txs : List Tx) (subs : List Sub) :
    (recompute today txs subs).filter (fun s => s.status = SubscriptionStatus.ignored) =
      subs.filter (fun s => s.status = SubscriptionStatus.ignored) := by
  unfold recompute
  rw [List.filter_append]
  have h1 : ((subs.filter fun s => s.status = SubscriptionStatus.ignored).filter
      fun s => s.status = SubscriptionStatus.ignored) =
      subs.filter fun s => s.status = SubscriptionStatus.ignored := by
    rw [List.filter_filter]
    simp
  have h2 : ((createdSubs today (ignoredKeysOf subs) txs).filter
      fun s => s.status = SubscriptionStatus.ignored) = [] := by
    rw [List.filter_eq_nil_iff]
    intro s hs
    simpa using createdSubs_status_ne_ignored hs
  rw [h1, h2, List.append_nil]

/-! ## Claim C9: idempotence under no new data -/

/-- C9: re-running recompute on the same day with the same transactions is
the identity on the resulting subscription state (so the non-ignored set —
vendor, amount, currency, status, cadence and all other fields — is
reproduced exactly, ids and timestamps being outside the model), and a pass
leaves the ignored set exactly unchanged. -/
theorem C9_idempotent (today : ℤ) (txs : List Tx) (subs : List Sub) :
    recompute today txs (recompute today txs subs) = recompute today txs subs ∧
    (recompute today txs subs).filter (fun s => s.status = SubscriptionStatus.ignored) =
      subs.filter (fun s => s.status = SubscriptionStatus.ignored) := by
  have hf := recompute_filter_ignored today txs subs
  refine ⟨?_, hf⟩
  have hkeys : ignoredKeysOf (recompute today txs subs) = ignoredKeysOf subs := by
    unfold ignoredKeysOf
    rw [hf]
  calc recompute today txs (recompute today txs subs)
      = (recompute today txs subs).filter (fun s => s.status = SubscriptionStatus.ignored) ++
          createdSubs today (ignoredKeysOf (recompute today txs subs)) txs := rfl
    _ = subs.filter (fun s => s.status = SubscriptionStatus.ignored) ++
          createdSubs today (ignoredKeysOf subs) txs := by rw [hf, hkeys]
    _ = recompute today txs subs := rfl

/-! ## Claim C1: the ignore-set and the ignored rows -/

/-- C1, counterexample to the rounded ignore-key: the user ignored
`(netflix, 10.00, USD)`.  Two Netflix charges of `10.00` and `10.01` form
one cluster with median `10.005`; `round(10.005, 2) = 10.00` is in the
ignore-set, yet the pass emits a non-ignored subscription for the cluster,
because the ignore match (line 346) compares the unrounded median. -/
theorem C1_counterexample :
    ignoredKeysOf [ignSub] = [("netflix", some 10, some "USD")] ∧
    _median [10, (1001 : ℚ) / 100] = some ((2001 : ℚ) / 200) ∧
    specRound2 ((2001 : ℚ) / 200) = 10 ∧
    (recompute 35 [nfTx2, nfTx1] [ignSub]).map (fun s => (s.vendor_name, s.status)) =
      [("Netflix", SubscriptionStatus.ignored), ("Netflix", SubscriptionStatus.active)] := by
  have hmed0 : _median [10, (1001 : ℚ) / 100] = some ((2001 : ℚ) / 200) := by
    norm_num [_median, pySorted, insertSorted, List.getD]
  have hmed : _median [_amount_to_float nfTx1.amount,
      _amount_to_float nfTx2.amount].reduceOption = some ((2001 : ℚ) / 200) := by
    rw [show [_amount_to_float nfTx1.amount, _amount_to_float nfTx2.amount].reduceOption =
        [10, (1001 : ℚ) / 100] from rfl]
    exact hmed0
  have hne : ¬((2001 : ℚ) / 200 = 10) := by norm_num
  have hkeys : ignoredKeysOf [ignSub] = [("netflix", some 10, some "USD")] := rfl
  have hround : specRound2 ((2001 : ℚ) / 200) = 10 := by
    norm_num [specRound2, pyRoundInt]
  refine ⟨hkeys, hmed0, hround, ?_⟩
  have hclu : _cluster_by_amount [nfTx2, nfTx1] = [[nfTx1, nfTx2]] := by
    have hno : ([nfTx2, nfTx1].filter (fun t => (_amount_to_float t.amount).isNone)) = [] := rfl
    have hwa : withAmounts [nfTx2, nfTx1] = [(nfTx2, (1001 : ℚ) / 100), (nfTx1, 10)] := rfl
    norm_num [_cluster_by_amount, hno, hwa, pySorted, insertSorted, clusterStep, pyMaxQ,
      pyAbsQ, absTol, pctTol]
  have hkept : ([ignSub].filter fun s => s.status = SubscriptionStatus.ignored) = [ignSub] := rfl
  have hnv : _normalize_vendor "Netflix" = "netflix" := rfl
  have hnv2 : ¬(("netflix" : String) = "") := by decide
  simp only [recompute, createdSubs, hkeys, hkept, hnv, hnv2, List.singleton_append,
    List.map_cons, List.map_nil, List.flatten, List.filterMap_cons, hclu, if_false,
    processCluster, hmed, List.mem_singleton, Prod.mk.injEq,
    Option.some.injEq, hne, false_and, and_false, true_and, ite_false]
  rfl

/-- C1 (amended): the recompute pass never creates, deletes or modifies an
`ignored` Subscription (the ignored rows survive every pass exactly, and
every created row is non-ignored); and a cluster is skipped exactly when its
`(VendorKey, median amount, currency)` key — with the EXACT, unrounded
median — is in the ignore-set.  No `round(…, 2)` is applied on either side
of the match, so a cluster whose rounded median equals an ignored amount but
whose exact median differs is still emitted. -/
theorem C1_amended :
    (∀ (today : ℤ) (txs : List Tx) (subs : List Sub),
      (recompute today txs subs).filter (fun s => s.status = SubscriptionStatus.ignored) =
        subs.filter (fun s => s.status = SubscriptionStatus.ignored)) ∧
    (∀ (today : ℤ) (ik : List IgnKey) (txs : List Tx) (s : Sub),
      s ∈ createdSubs today ik txs → s.status ≠ SubscriptionStatus.ignored) ∧
    (∀ (today : ℤ) (ik : List IgnKey) (vk : String) (vc : Option String) (items : List Tx),
      (vk, _median ((items.map fun t => _amount_to_float t.amount).reduceOption), vc) ∈ ik →
      processCluster today ik vk vc items = none) := by
  refine ⟨recompute_filter_ignored, fun _ _ _ _ hs => createdSubs_status_ne_ignored hs,
    fun today ik vk vc items hmem => ?_⟩
  simp only [processCluster]
  rw [if_pos hmem]

/-- C1, witness: a cluster whose exact key is in the ignore-set is skipped. -/
theorem C1_witness :
    processCluster 0 [("v", none, none)] "v" none [txPlain] = none :=
  C1_amended.2.2 0 [("v", none, none)] "v" none [txPlain] (by decide)

/-! ## Claim C2: next-renewal priority -/

/-- An explicit future renewal date always wins (lines 398-416). -/
theorem nextRenewalAndEst_explicit {today : ℤ} {flagged : List Tx} {mg : Option ℤ}
    {ld r : ℤ} (hr : explicitRenewalOf today flagged = some r) :
    nextRenewalAndEst today flagged mg ld = (some r, false) := by
  unfold nextRenewalAndEst
  rw [hr]

/-- With no explicit renewal and a cadence, the projection is used and
marked estimated (lines 413-416). -/
theorem nextRenewalAndEst_cadence {today : ℤ} {flagged : List Tx} {g ld : ℤ}
    (hr : explicitRenewalOf today flagged = none) (hg : g ≠ 0) :
    nextRenewalAndEst today flagged (some g) ld =
      (some (rollIter 24 (ld + g) g today), true) := by
  unfold nextRenewalAndEst
  rw [hr]
  simp [_roll_forward, hg]

/-- With neither an explicit renewal nor a cadence, no next renewal is
chosen at lines 396-416. -/
theorem nextRenewalAndEst_none {today : ℤ} {flagged : List Tx} {ld : ℤ}
    (hr : explicitRenewalOf today flagged = none) :
    nextRenewalAndEst today flagged none ld = (none, false) := by
  unfold nextRenewalAndEst
  rw [hr]

/-- A cadence that survives the plausibility guard lies in `[7, 400]`. -/
theorem cadenceOf_bounds {dates : List ℤ} {g : ℤ} (h : cadenceOf dates = some g) :
    7 ≤ g ∧ g ≤ 400 := by
  unfold cadenceOf at h
  split at h
  · cases h
  · rename_i g0
    split at h
    · cases h
    · rename_i hg
      injection h with h
      omega

/-- C2, counterexample: a cluster with dates `{0, 30}` (cadence 30), one
member carrying `trial_end_date = 40 ≥ today = 35`, and no explicit renewal.
The claim demands `next_renewal_date = 40` (trial end before cadence, with
`predicted_is_estimated = false`), but the code projects from cadence:
`next_renewal_date = 60` with `predicted_is_estimated = true`. -/
theorem C2_counterexample :
    explicitRenewalOf 35 (flaggedOf [cadTx2, cadTx1]) = none ∧
    trialEndOf 35 (flaggedOf [cadTx2, cadTx1]) = some 40 ∧
    cadenceOf (_date_list [cadTx2, cadTx1]) = some 30 ∧
    (recompute 35 [cadTx2, cadTx1] []).map
        (fun s => (s.next_renewal_date, s.meta.predicted_is_estimated)) =
      [(some 60, true)] := by
  decide

/-- C2 (amended): for every emitted Subscription, `next_renewal_date` is
chosen by this priority: (1) the latest explicit `renewal_date ≥ today`
among flagged transactions, with `predicted_is_estimated = false`; else
(2) the cadence-projected date when a cadence exists, with
`predicted_is_estimated = true`; else (3) the latest explicit
`trial_end_date ≥ today`, with `predicted_is_estimated = false`; and when
all three are absent the cluster is emitted only if at least one flagged
transaction exists. -/
theorem C2_amended :
    (∀ (today : ℤ) (ik : List IgnKey) (vk : String) (vc : Option String)
        (items : List Tx) (s : Sub) (r : ℤ),
      processCluster today ik vk vc items = some s →
      explicitRenewalOf today (flaggedOf items) = some r →
      s.next_renewal_date = some r ∧ s.meta.predicted_is_estimated = false) ∧
    (∀ (today : ℤ) (ik : List IgnKey) (vk : String) (vc : Option String)
        (items : List Tx) (s : Sub) (g : ℤ),
      processCluster today ik vk vc items = some s →
      explicitRenewalOf today (flaggedOf items) = none →
      cadenceOf (_date_list items) = some g →
      s.next_renewal_date = some (rollIter 24 (listMax (_date_list items) + g) g today) ∧
        s.meta.predicted_is_estimated = true) ∧
    (∀ (today : ℤ) (ik : List IgnKey) (vk : String) (vc : Option String)
        (items : List Tx) (s : Sub),
      processCluster today ik vk vc items = some s →
      explicitRenewalOf today (flaggedOf items) = none →
      cadenceOf (_date_list items) = none →
      s.next_renewal_date = trialEndOf today (flaggedOf items) ∧
        s.meta.predicted_is_estimated = false) ∧
    (∀ (today : ℤ) (ik : List IgnKey) (vk : String) (vc : Option String)
        (items : List Tx) (s : Sub),
      processCluster today ik vk vc items = some s →
      explicitRenewalOf today (flaggedOf items) = none →
      cadenceOf (_date_list items) = none →
      trialEndOf today (flaggedOf items) = none →
      flaggedOf items ≠ []) := by
  refine ⟨?_, ?_, ?_, ?_⟩
  · intro today ik vk vc items s r h hr
    rw [(processCluster_inv h).1, buildSub_next_renewal, buildSub_est,
      nextRenewalAndEst_explicit hr]
    exact ⟨rfl, rfl⟩
  · intro today ik vk vc items s g h hr hg
    have hg0 : g ≠ 0 := by
      have := cadenceOf_bounds hg
      omega
    rw [(processCluster_inv h).1, buildSub_next_renewal, buildSub_est, hg,
      nextRenewalAndEst_cadence hr hg0]
    exact ⟨rfl, rfl⟩
  · intro today ik vk vc items s h hr hg
    rw [(processCluster_inv h).1, buildSub_next_renewal, buildSub_est, hg,
      nextRenewalAndEst_none hr]
    exact ⟨rfl, rfl⟩
  · intro today ik vk vc items s h hr hg _
    have h5 := (processCluster_inv h).2.2.2.2.2
    rw [hg, nextRenewalAndEst_none hr] at h5
    exact h5 rfl

/-- C2, witness: a single flagged transaction with `renewal_date = 50`
(`today = 0`) is emitted with `next_renewal_date = 50`, not estimated. -/
theorem C2_witness :
    (processCluster 0 [] "v" none [renTx]).map
        (fun s => (s.next_renewal_date, s.meta.predicted_is_estimated)) =
      some (some 50, false) := by
  have hsome : (processCluster 0 [] "v" none [renTx]).isSome := by decide
  obtain ⟨s, hs⟩ := Option.isSome_iff_exists.mp hsome
  have h := C2_amended.1 0 [] "v" none [renTx] s 50 hs (by decide)
  rw [hs]
  simp only [Option.map_some']
  rw [h.1, h.2]

/-! ## Claim C3: trial status -/

/-- C3, counterexample: the scenario of the claim (one transaction with
`trial_end_date = today + 5`) yields a Subscription whose stored status is
the enum value `active` — the `SubscriptionStatus` enum of models.py has no
`trial` member at all (`getattr(SubscriptionStatus, "trial", None)` is
`None`), so no stored status can equal `trial`. -/
theorem C3_counterexample :
    (recompute 100 [txTrial] []).map (fun s => s.status) = [SubscriptionStatus.active] ∧
    statusTrialOpt = none ∧
    SubscriptionStatus.toStr .active ≠ "trial" ∧
    SubscriptionStatus.toStr .canceled ≠ "trial" ∧
    SubscriptionStatus.toStr .ignored ≠ "trial" := by
  decide

/-- C3 (amended): for every emitted Subscription whose cluster has a future
trial end date and at most one charge date, the stored status is `active`
(the enum's fallback for the missing `trial` member) with `meta.kind =
"trial"`; the claim's scenario (one transaction, `trial_end_date = today+5`)
yields exactly one Subscription with that status and kind,
`next_renewal_date = trial_end_date`, and `predicted_is_estimated = false`. -/
theorem C3_amended :
    (∀ (today : ℤ) (ik : List IgnKey) (vk : String) (vc : Option String)
        (items : List Tx) (s : Sub),
      processCluster today ik vk vc items = some s →
      s.trial_end_date.isSome →
      (_date_list items).length ≤ 1 →
      s.status = SubscriptionStatus.active ∧ s.meta.kind = "trial") ∧
    (recompute 100 [txTrial] []).map
        (fun s => (s.status, s.meta.kind, s.next_renewal_date, s.meta.predicted_is_estimated)) =
      [(SubscriptionStatus.active, "trial", some 105, false)] := by
  constructor
  · intro today ik vk vc items s h hte hlen
    have hb := (processCluster_inv h).1
    rw [hb, buildSub_trial_end] at hte
    rw [hb, buildSub_status, buildSub_kind]
    unfold statusKindOf
    rw [if_pos ⟨hte, hlen⟩]
    exact ⟨rfl, rfl⟩
  · decide

/-- C3, witness: the trial branch applied to the claim's scenario. -/
theorem C3_witness :
    (processCluster 100 [] "v" none [txTrial]).map
        (fun s => (s.status, s.meta.kind)) = some (SubscriptionStatus.active, "trial") := by
  have hsome : (processCluster 100 [] "v" none [txTrial]).isSome := by decide
  obtain ⟨s, hs⟩ := Option.isSome_iff_exists.mp hsome
  have hte : s.trial_end_date.isSome := by
    have hev : (processCluster 100 [] "v" none [txTrial]).map
        (fun s => s.trial_end_date) = some (some 105) := by decide
    rw [hs] at hev
    simp only [Option.map_some'] at hev
    injection hev with hev
    rw [hev]
    rfl
  have h := C3_amended.1 100 [] "v" none [txTrial] s hs hte (by decide)
  rw [hs]
  simp only [Option.map_some']
  rw [h.1, h.2]

/-! ## Claim C8: evidence-sufficiency gate -/

/-- C8: a single-date cluster is emitted only when a member carries an
explicit trial or renewal signal; a multi-date cluster without usable
cadence is emitted only when a member carries concrete evidence (a parsed
amount, an explicit trial date, or an explicit renewal date); and a single
unflagged transaction creates no Subscription at all. -/
theorem C8_gate :
    (∀ (today : ℤ) (ik : List IgnKey) (vk : String) (vc : Option String)
        (items : List Tx) (s : Sub),
      processCluster today ik vk vc items = some s →
      (_date_list items).length = 1 →
      ∃ t ∈ items, t.trial_end_date.isSome ∨ t.renewal_date.isSome) ∧
    (∀ (today : ℤ) (ik : List IgnKey) (vk : String) (vc : Option String)
        (items : List Tx) (s : Sub),
      processCluster today ik vk vc items = some s →
      2 ≤ (_date_list items).length →
      cadenceOf (_date_list items) = none →
      ∃ t ∈ items, t.amount.isSome ∨ t.trial_end_date.isSome ∨ t.renewal_date.isSome) ∧
    recompute 100 [txPlain] [] = [] := by
  refine ⟨?_, ?_, by decide⟩
  · intro today ik vk vc items s h hlen
    have hev := (processCluster_inv h).2.2.2.1 hlen
    simp only [Bool.or_eq_true, trialEvidence, renewalEvidence, List.any_eq_true,
      Bool.and_eq_true] at hev
    rcases hev with ⟨t, ht, hsig, _⟩ | ⟨t, ht, hsig, _⟩
    · exact ⟨t, ht, Or.inl hsig⟩
    · exact ⟨t, ht, Or.inr hsig⟩
  · intro today ik vk vc items s h hlen hcad
    have hev := (processCluster_inv h).2.2.2.2.1 (by omega) hcad
    simp only [Bool.or_eq_true, amountEvidence, trialEvidence, renewalEvidence,
      List.any_eq_true, Bool.and_eq_true] at hev
    rcases hev with (⟨t, ht, hsig, _⟩ | ⟨t, ht, hsig, _⟩) | ⟨t, ht, hsig, _⟩
    · exact ⟨t, ht, Or.inl hsig⟩
    · exact ⟨t, ht, Or.inr (Or.inl hsig)⟩
    · exact ⟨t, ht, Or.inr (Or.inr hsig)⟩

/-- C8, witness: the gate applied to a concrete emitted single-date
cluster. -/
theorem C8_witness :
    ∃ t ∈ [txTrial], t.trial_end_date.isSome ∨ t.renewal_date.isSome := by
  have hsome : (processCluster 100 [] "v" none [txTrial]).isSome := by decide
  obtain ⟨s, hs⟩ := Option.isSome_iff_exists.mp hsome
  exact C8_gate.1 100 [] "v" none [txTrial] s hs (by decide)

/-! ## Claim C5: character-level lemmas for the normalizer -/

/-- `Char.ofNat` of a small code point round-trips through `toNat`. -/
theorem toNat_ofNat_small {n : Nat} (h : n < 55296) : (Char.ofNat n).toNat = n := by
  unfold Char.ofNat
  rw [dif_pos (Or.inl h)]
  rfl

/-- Lowercasing one character is idempotent. -/
theorem lowerChar_idem (c : Char) : lowerChar (lowerChar c) = lowerChar c := by
  unfold lowerChar
  by_cases h : 65 ≤ c.toNat ∧ c.toNat ≤ 90
  · rw [if_pos h]
    have ht : (Char.ofNat (c.toNat + 32)).toNat = c.toNat + 32 :=
      toNat_ofNat_small (by omega)
    rw [if_neg (by rw [ht]; omega)]
  · rw [if_neg h, if_neg h]

/-- Every character produced by lowercase-then-separator-replacement is
fixed by both maps. -/
theorem char_fix (d : Char) :
    lowerChar (replaceSep (lowerChar d)) = replaceSep (lowerChar d) ∧
    replaceSep (replaceSep (lowerChar d)) = replaceSep (lowerChar d) := by
  unfold replaceSep
  by_cases h : lowerChar d ∈ sepChars
  · rw [if_pos h]
    constructor
    · decide
    · rw [if_neg (by decide)]
  · rw [if_neg h]
    exact ⟨lowerChar_idem d, by rw [if_neg h]⟩

/-- The space character is fixed by both maps. -/
theorem space_fix : lowerChar ' ' = ' ' ∧ replaceSep ' ' = ' ' := by
  constructor
  · decide
  · unfold replaceSep
    rw [if_neg (by decide)]

/-- A pointwise-fixed map is the identity on the list. -/
theorem map_fix {f : Char → Char} {l : List Char} (h : ∀ c ∈ l, f c = c) :
    l.map f = l := by
  induction l with
  | nil => rfl
  | cons a as ih =>
    simp only [List.map_cons, h a (List.mem_cons_self a as)]
    rw [ih fun c hc => h c (List.mem_cons_of_mem a hc)]

/-- Elements survive `dropWhile` only from the original list. -/
theorem mem_dropWhile {p : α → Bool} {l : List α} {a : α}
    (h : a ∈ l.dropWhile p) : a ∈ l := by
  induction l with
  | nil => cases h
  | cons b bs ih =>
    rw [List.dropWhile_cons] at h
    split at h
    · exact List.mem_cons_of_mem b (ih h)
    · exact h

/-- Elements survive `dropRightWhile` only from the original list. -/
theorem mem_dropRightWhile {p : α → Bool} {l : List α} {a : α}
    (h : a ∈ dropRightWhile p l) : a ∈ l := by
  unfold dropRightWhile at h
  rw [List.mem_reverse] at h
  exact List.mem_reverse.mp (mem_dropWhile h)

/-- Elements survive `pyStrip` only from the original list. -/
theorem mem_pyStrip {l : List Char} {c : Char} (h : c ∈ pyStrip l) : c ∈ l :=
  mem_dropWhile (mem_dropRightWhile h)

/-- `dropWhile` is idempotent. -/
theorem dropWhile_dropWhile (p : α → Bool) (l : List α) :
    (l.dropWhile p).dropWhile p = l.dropWhile p := by
  induction l with
  | nil => rfl
  | cons a as ih =>
    rw [List.dropWhile_cons]
    split
    · exact ih
    · rename_i h
      rw [List.dropWhile_cons, if_neg h]

/-- `dropRightWhile` is idempotent. -/
theorem dropRightWhile_idem (p : α → Bool) (l : List α) :
    dropRightWhile p (dropRightWhile p l) = dropRightWhile p l := by
  unfold dropRightWhile
  rw [List.reverse_reverse, dropWhile_dropWhile]

/-- `dropWhile` yields a suffix. -/
theorem dropWhile_isSuffix (p : α → Bool) (l : List α) : l.dropWhile p <:+ l := by
  induction l with
  | nil => exact List.suffix_rfl
  | cons a as ih =>
    rw [List.dropWhile_cons]
    split
    · exact ih.trans (List.suffix_cons a as)
    · exact List.suffix_rfl

/-- `dropRightWhile` yields a front part of the list. -/
theorem dropRightWhile_isPrefix (p : α → Bool) (l : List α) :
    dropRightWhile p l <+: l := by
  have h := dropWhile_isSuffix p l.reverse
  unfold dropRightWhile
  rw [← List.reverse_reverse l]
  exact List.reverse_prefix.mpr (by rw [List.reverse_reverse]; exact h)

/-- `dropWhile` never lengthens a list. -/
theorem length_dropWhile_le' (p : α → Bool) (l : List α) :
    (l.dropWhile p).length ≤ l.length := by
  induction l with
  | nil => exact Nat.le_refl 0
  | cons a as ih =>
    rw [List.dropWhile_cons]
    split
    · exact Nat.le_succ_of_le ih
    · exact Nat.le_refl _

/-- `dropWhile` stops at most once: a front part of a `dropWhile`-fixed
list is itself fixed. -/
theorem dropWhile_eq_self_of_prefix {p : α → Bool} {l y : List α}
    (hx : l.dropWhile p = l) (hpre : y <+: l) : y.dropWhile p = y := by
  cases y with
  | nil => rfl
  | cons a ys =>
    obtain ⟨t, ht⟩ := hpre
    have hpa : p a = false := by
      by_contra hpa
      rw [Bool.not_eq_false] at hpa
      rw [← ht, List.cons_append, List.dropWhile_cons, if_pos hpa] at hx
      have hlen := congrArg List.length hx
      rw [List.length_cons, List.length_append] at hlen
      have h2 := length_dropWhile_le' p (ys ++ t)
      rw [List.length_append] at h2
      omega
    rw [List.dropWhile_cons, if_neg (by rw [hpa]; exact Bool.false_ne_true)]

/-- `pyStrip` is idempotent. -/
theorem pyStrip_idem (l : List Char) : pyStrip (pyStrip l) = pyStrip l := by
  unfold pyStrip
  have h1 : (dropRightWhile isSpc (l.dropWhile isSpc)).dropWhile isSpc =
      dropRightWhile isSpc (l.dropWhile isSpc) :=
    dropWhile_eq_self_of_prefix (dropWhile_dropWhile isSpc l)
      (dropRightWhile_isPrefix isSpc (l.dropWhile isSpc))
  rw [h1, dropRightWhile_idem]

/-- `takeWhile` only keeps elements satisfying the predicate. -/
theorem mem_takeWhile' {p : α → Bool} {l : List α} {a : α}
    (h : a ∈ l.takeWhile p) : p a = true := by
  induction l with
  | nil => cases h
  | cons b bs ih =>
    rw [List.takeWhile_cons] at h
    split at h
    · rcases List.mem_cons.mp h with h2 | h2
      · subst h2; assumption
      · exact ih h2
    · cases h

/-- The two step equations of the tokenizer. -/
theorem pySplitAux_nil (acc : List Char) :
    pySplitAux [] acc = if acc = [] then [] else [acc.reverse] := rfl

/-- See `pySplitAux_nil`. -/
theorem pySplitAux_cons (c : Char) (cs acc : List Char) :
    pySplitAux (c :: cs) acc =
      if isSpc c then
        if acc = [] then pySplitAux cs [] else acc.reverse :: pySplitAux cs []
      else pySplitAux cs (c :: acc) := rfl

/-- Characters of emitted tokens come from the input or the pending
accumulator. -/
theorem pySplitAux_chars {l acc t : List Char} {c : Char}
    (ht : t ∈ pySplitAux l acc) (hc : c ∈ t) : c ∈ l ∨ c ∈ acc := by
  induction l generalizing acc with
  | nil =>
    rw [pySplitAux_nil] at ht
    split at ht
    · cases ht
    · rw [List.mem_singleton] at ht
      subst ht
      exact Or.inr (List.mem_reverse.mp hc)
  | cons a as ih =>
    rw [pySplitAux_cons] at ht
    split at ht
    · split at ht
      · rcases ih ht with h | h
        · exact Or.inl (List.mem_cons_of_mem a h)
        · cases h
      · rcases List.mem_cons.mp ht with h | h
        · subst h
          exact Or.inr (List.mem_reverse.mp hc)
        · rcases ih h with h2 | h2
          · exact Or.inl (List.mem_cons_of_mem a h2)
          · cases h2
    · rcases ih ht with h | h
      · exact Or.inl (List.mem_cons_of_mem a h)
      · rcases List.mem_cons.mp h with h2 | h2
        · exact Or.inl (by rw [h2]; exact List.mem_cons_self a as)
        · exact Or.inr h2

/-- Emitted tokens are nonempty and contain no whitespace. -/
theorem pySplitAux_token_props {l acc : List Char}
    (hacc : ∀ c ∈ acc, isSpc c = false) :
    ∀ t ∈ pySplitAux l acc, t ≠ [] ∧ ∀ c ∈ t, isSpc c = false := by
  induction l generalizing acc with
  | nil =>
    intro t ht
    rw [pySplitAux_nil] at ht
    split at ht
    · cases ht
    · rename_i hne
      rw [List.mem_singleton] at ht
      subst ht
      exact ⟨by simpa using hne, fun c hc => hacc c (List.mem_reverse.mp hc)⟩
  | cons a as ih =>
    intro t ht
    rw [pySplitAux_cons] at ht
    split at ht
    · split at ht
      · exact ih (fun c hc => by cases hc) t ht
      · rename_i hne
        rcases List.mem_cons.mp ht with h | h
        · subst h
          exact ⟨by simpa using hne, fun c hc => hacc c (List.mem_reverse.mp hc)⟩
        · exact ih (fun c hc => by cases hc) t h
    · rename_i hna
      refine ih ?_ t ht
      intro c hc
      rcases List.mem_cons.mp hc with h | h
      · subst h
        simpa using hna
      · exact hacc c h

/-- Feeding a whitespace-free block extends the pending token. -/
theorem pySplitAux_append_token {t : List Char} (htok : ∀ c ∈ t, isSpc c = false) :
    ∀ (l acc : List Char), pySplitAux (t ++ l) acc = pySplitAux l (t.reverse ++ acc) := by
  induction t with
  | nil => intro l acc; rfl
  | cons a ts ih =>
    intro l acc
    rw [List.cons_append, pySplitAux_cons,
      if_neg (by simpa using htok a (List.mem_cons_self a ts))]
    rw [ih (fun c hc => htok c (List.mem_cons_of_mem a hc)) l (a :: acc)]
    rw [List.reverse_cons, List.append_assoc]
    rfl

/-- A fully-whitespace input only flushes the pending token. -/
theorem pySplitAux_all_space {sp : List Char} (hsp : ∀ c ∈ sp, isSpc c = true) :
    ∀ acc, pySplitAux sp acc = if acc = [] then [] else [acc.reverse] := by
  induction sp with
  | nil => intro acc; rfl
  | cons a as ih =>
    intro acc
    rw [pySplitAux_cons, if_pos (hsp a (List.mem_cons_self a as))]
    have h1 : pySplitAux as [] = [] := by
      rw [ih (fun c hc => hsp c (List.mem_cons_of_mem a hc)) [], if_pos rfl]
    split
    · exact h1
    · rw [h1]

/-- Trailing whitespace never changes the token list. -/
theorem pySplitAux_append_spaces {sp : List Char} (hsp : ∀ c ∈ sp, isSpc c = true) :
    ∀ (l acc : List Char), pySplitAux (l ++ sp) acc = pySplitAux l acc := by
  intro l
  induction l with
  | nil =>
    intro acc
    rw [List.nil_append, pySplitAux_all_space hsp, pySplitAux_nil]
  | cons a as ih =>
    intro acc
    rw [List.cons_append, pySplitAux_cons, pySplitAux_cons]
    split
    · split
      · exact ih []
      · rw [ih []]
    · exact ih (a :: acc)

/-- Leading whitespace never changes the token list. -/
theorem pySplit_dropWhile (l : List Char) :
    pySplit (l.dropWhile isSpc) = pySplit l := by
  unfold pySplit
  induction l with
  | nil => rfl
  | cons a as ih =>
    rw [List.dropWhile_cons]
    split
    · rename_i h
      rw [ih, pySplitAux_cons, if_pos h, if_pos rfl]
    · rfl

/-- Stripping never changes the token list. -/
theorem pySplit_pyStrip (l : List Char) : pySplit (pyStrip l) = pySplit l := by
  have hsp : ∀ c ∈ ((l.dropWhile isSpc).reverse.takeWhile isSpc).reverse, isSpc c = true :=
    fun c hc => mem_takeWhile' (List.mem_reverse.mp hc)
  have hdecomp : l.dropWhile isSpc =
      pyStrip l ++ ((l.dropWhile isSpc).reverse.takeWhile isSpc).reverse := by
    unfold pyStrip dropRightWhile
    rw [← List.reverse_append, List.takeWhile_append_dropWhile, List.reverse_reverse]
  calc pySplit (pyStrip l)
      = pySplit (pyStrip l ++ ((l.dropWhile isSpc).reverse.takeWhile isSpc).reverse) := by
        unfold pySplit
        rw [pySplitAux_append_spaces hsp]
    _ = pySplit (l.dropWhile isSpc) := by rw [← hdecomp]
    _ = pySplit l := pySplit_dropWhile l

/-- Joining clean tokens with single spaces and re-splitting is the
identity. -/
theorem pySplit_joinSpace {ts : List (List Char)} (hne : ∀ t ∈ ts, t ≠ [])
    (hsp : ∀ t ∈ ts, ∀ c ∈ t, isSpc c = false) : pySplit (joinSpace ts) = ts := by
  induction ts with
  | nil => rfl
  | cons t ts' ih =>
    cases ts' with
    | nil =>
      show pySplit t = [t]
      unfold pySplit
      have hstep := pySplitAux_append_token (hsp t (List.mem_singleton.mpr rfl)) [] []
      rw [List.append_nil] at hstep
      rw [hstep, List.append_nil, pySplitAux_nil,
        if_neg (by simpa using hne t (List.mem_singleton.mpr rfl)),
        List.reverse_reverse]
    | cons t2 ts'' =>
      have hjoin : joinSpace (t :: t2 :: ts'') = t ++ ' ' :: joinSpace (t2 :: ts'') := rfl
      rw [hjoin]
      unfold pySplit
      rw [pySplitAux_append_token (hsp t (List.mem_cons_self t (t2 :: ts''))) _ [],
        List.append_nil, pySplitAux_cons, if_pos (by decide),
        if_neg (by simpa using hne t (List.mem_cons_self t (t2 :: ts''))),
        List.reverse_reverse]
      congr 1
      exact ih (fun u hu => hne u (List.mem_cons_of_mem t hu))
        (fun u hu => hsp u (List.mem_cons_of_mem t hu))

/-- Characters of a space-join come from a token or are the space itself. -/
theorem mem_joinSpace {ts : List (List Char)} {c : Char} (h : c ∈ joinSpace ts) :
    (∃ t ∈ ts, c ∈ t) ∨ c = ' ' := by
  induction ts with
  | nil => cases h
  | cons t ts' ih =>
    cases ts' with
    | nil => exact Or.inl ⟨t, List.mem_singleton.mpr rfl, h⟩
    | cons t2 ts'' =>
      have hj : joinSpace (t :: t2 :: ts'') = t ++ ' ' :: joinSpace (t2 :: ts'') := rfl
      rw [hj, List.mem_append] at h
      rcases h with h | h
      · exact Or.inl ⟨t, List.mem_cons_self t (t2 :: ts''), h⟩
      · rcases List.mem_cons.mp h with h | h
        · exact Or.inr h
        · rcases ih h with ⟨u, hu, hcu⟩ | h2
          · exact Or.inl ⟨u, List.mem_cons_of_mem t hu, hcu⟩
          · exact Or.inr h2

/-- A token's characters appear in the space-join. -/
theorem mem_joinSpace_of_mem {ts : List (List Char)} {t : List Char} {c : Char}
    (ht : t ∈ ts) (hc : c ∈ t) : c ∈ joinSpace ts := by
  induction ts with
  | nil => cases ht
  | cons u ts' ih =>
    cases ts' with
    | nil =>
      rw [List.mem_singleton] at ht
      subst ht
      exact hc
    | cons u2 ts'' =>
      have hj : joinSpace (u :: u2 :: ts'') = u ++ ' ' :: joinSpace (u2 :: ts'') := rfl
      rw [hj, List.mem_append]
      rcases List.mem_cons.mp ht with h | h
      · subst h
        exact Or.inl hc
      · exact Or.inr (List.mem_cons_of_mem ' ' (ih h))

/-- A non-matching element survives `dropWhile`. -/
theorem mem_dropWhile_of_not {p : α → Bool} {l : List α} {a : α}
    (ha : p a = false) (h : a ∈ l) : a ∈ l.dropWhile p := by
  induction l with
  | nil => cases h
  | cons b bs ih =>
    rw [List.dropWhile_cons]
    split
    · rename_i hb
      rcases List.mem_cons.mp h with h2 | h2
      · subst h2
        rw [hb] at ha
        cases ha
      · exact ih h2
    · exact h

/-- A list with a non-space character does not strip to nothing. -/
theorem pyStrip_ne_nil_of_mem {l : List Char} {c : Char}
    (hc : c ∈ l) (hns : isSpc c = false) : pyStrip l ≠ [] := by
  intro h
  unfold pyStrip dropRightWhile at h
  rw [List.reverse_eq_nil_iff, List.dropWhile_eq_nil_iff] at h
  have h1 : c ∈ l.dropWhile isSpc := mem_dropWhile_of_not hns hc
  have h2 := h c (List.mem_reverse.mpr h1)
  rw [hns] at h2
  cases h2

/-- `dropRightWhile` never lengthens a list. -/
theorem length_dropRightWhile_le (p : α → Bool) (l : List α) :
    (dropRightWhile p l).length ≤ l.length := by
  unfold dropRightWhile
  rw [List.length_reverse]
  calc (l.reverse.dropWhile p).length
      ≤ l.reverse.length := length_dropWhile_le' p l.reverse
    _ = l.length := List.length_reverse l

/-- Every token of a tokenization is nonempty and space-free. -/
theorem pySplit_token_props {s : List Char} :
    ∀ t ∈ pySplit s, t ≠ [] ∧ ∀ c ∈ t, isSpc c = false :=
  pySplitAux_token_props fun c hc => by cases hc

/-- On an input whose characters are fixed by both character maps, the
normalizer is the token pipeline applied to the stripped input. -/
theorem normalizeList_eq_normCore {s : List Char}
    (hP : ∀ c ∈ s, lowerChar c = c ∧ replaceSep c = c) :
    normalizeList s = normCore (pyStrip s) := by
  have h1 : (pyStrip s).map lowerChar = pyStrip s :=
    map_fix fun c hc => (hP c (mem_pyStrip hc)).1
  have h2 : (pyStrip s).map replaceSep = pyStrip s :=
    map_fix fun c hc => (hP c (mem_pyStrip hc)).2
  simp only [normalizeList, normCore, h1, h2]

/-- Every character of a normalizer output is fixed by both character
maps. -/
theorem mem_normalizeList_fix {l : List Char} {c : Char} (hc : c ∈ normalizeList l) :
    lowerChar c = c ∧ replaceSep c = c := by
  have hs2 : ∀ d ∈ ((pyStrip l).map lowerChar).map replaceSep,
      lowerChar d = d ∧ replaceSep d = d := by
    intro d hd
    rw [List.mem_map] at hd
    obtain ⟨d', hd', rfl⟩ := hd
    rw [List.mem_map] at hd'
    obtain ⟨d0, _, rfl⟩ := hd'
    exact char_fix d0
  simp only [normalizeList] at hc
  split at hc
  · cases hc
  · split at hc
    · exact hs2 c hc
    · have h1 := mem_pyStrip hc
      rcases mem_joinSpace h1 with ⟨t, ht, hct⟩ | hsp
      · have ht1 : t ∈ dropTrailingDigits
            ((pySplit (((pyStrip l).map lowerChar).map replaceSep)).filter
              (fun p => !noiseTokens.contains p)) := List.take_subset 6 _ ht
        unfold dropTrailingDigits at ht1
        have ht2 := List.mem_filter.mp (mem_dropRightWhile ht1)
        rcases pySplitAux_chars ht2.1 hct with h | h
        · exact hs2 c h
        · cases h
      · rw [hsp]
        exact space_fix

/-- After one pass, the surviving token list has at most 6 entries (the
key keeps at most 6 tokens, and the fallback keeps a string all of whose
tokens are filtered away). -/
theorem normalizeList_parts_bound (l : List Char) :
    (dropTrailingDigits ((pySplit (normalizeList l)).filter
      (fun p => !noiseTokens.contains p))).length ≤ 6 := by
  simp only [normalizeList]
  split
  · decide
  · split
    · rename_i hs1 hkey
      have hparts : dropTrailingDigits
          ((pySplit (((pyStrip l).map lowerChar).map replaceSep)).filter
            (fun p => !noiseTokens.contains p)) = [] := by
        by_contra hne
        have htk : (dropTrailingDigits
            ((pySplit (((pyStrip l).map lowerChar).map replaceSep)).filter
              (fun p => !noiseTokens.contains p))).take 6 ≠ [] := by
          rw [Ne, List.take_eq_nil_iff]
          push_neg
          exact ⟨by omega, hne⟩
        obtain ⟨t, ht⟩ := List.exists_mem_of_ne_nil _ htk
        have ht1 : t ∈ dropTrailingDigits
            ((pySplit (((pyStrip l).map lowerChar).map replaceSep)).filter
              (fun p => !noiseTokens.contains p)) := List.take_subset 6 _ ht
        have ht2 : t ∈ pySplit (((pyStrip l).map lowerChar).map replaceSep) := by
          unfold dropTrailingDigits at ht1
          exact (List.mem_filter.mp (mem_dropRightWhile ht1)).1
        have hprops := pySplit_token_props t ht2
        obtain ⟨c, hc⟩ := List.exists_mem_of_ne_nil t hprops.1
        exact pyStrip_ne_nil_of_mem (mem_joinSpace_of_mem ht hc)
          (hprops.2 c hc) hkey
      rw [hparts]
      decide
    · rename_i hs1 hkey
      have hT6 : ∀ t ∈ (dropTrailingDigits
          ((pySplit (((pyStrip l).map lowerChar).map replaceSep)).filter
            (fun p => !noiseTokens.contains p))).take 6,
          t ≠ [] ∧ ∀ c ∈ t, isSpc c = false := by
        intro t ht
        have ht1 := List.take_subset 6 _ ht
        unfold dropTrailingDigits at ht1
        exact pySplit_token_props t (List.mem_filter.mp (mem_dropRightWhile ht1)).1
      have hsplit : pySplit (pyStrip (joinSpace ((dropTrailingDigits
          ((pySplit (((pyStrip l).map lowerChar).map replaceSep)).filter
            (fun p => !noiseTokens.contains p))).take 6))) =
          (dropTrailingDigits
            ((pySplit (((pyStrip l).map lowerChar).map replaceSep)).filter
              (fun p => !noiseTokens.contains p))).take 6 := by
        rw [pySplit_pyStrip]
        exact pySplit_joinSpace (fun t ht => (hT6 t ht).1) (fun t ht => (hT6 t ht).2)
      rw [hsplit]
      calc (dropTrailingDigits (((dropTrailingDigits
            ((pySplit (((pyStrip l).map lowerChar).map replaceSep)).filter
              (fun p => !noiseTokens.contains p))).take 6).filter
            (fun p => !noiseTokens.contains p))).length
          ≤ (((dropTrailingDigits
              ((pySplit (((pyStrip l).map lowerChar).map replaceSep)).filter
                (fun p => !noiseTokens.contains p))).take 6).filter
              (fun p => !noiseTokens.contains p)).length :=
            length_dropRightWhile_le _ _
        _ ≤ ((dropTrailingDigits
              ((pySplit (((pyStrip l).map lowerChar).map replaceSep)).filter
                (fun p => !noiseTokens.contains p))).take 6).length :=
            List.length_filter_le _ _
        _ ≤ 6 := by
            rw [List.length_take]
            exact Nat.min_le_left 6 _

/-- The normalizer stabilizes after two applications. -/
theorem normalizeList_stable (l : List Char) :
    normalizeList (normalizeList (normalizeList l)) = normalizeList (normalizeList l) := by
  have hPy : ∀ c ∈ normalizeList l, lowerChar c = c ∧ replaceSep c = c :=
    fun c hc => mem_normalizeList_fix hc
  have hbound := normalizeList_parts_bound l
  rw [normalizeList_eq_normCore hPy]
  by_cases hstrip : pyStrip (normalizeList l) = []
  · rw [hstrip]
    rfl
  · have hbound' : (dropTrailingDigits ((pySplit (pyStrip (normalizeList l))).filter
        (fun p => !noiseTokens.contains p))).length ≤ 6 := by
      rw [pySplit_pyStrip]
      exact hbound
    have htake : (dropTrailingDigits ((pySplit (pyStrip (normalizeList l))).filter
        (fun p => !noiseTokens.contains p))).take 6 =
        dropTrailingDigits ((pySplit (pyStrip (normalizeList l))).filter
          (fun p => !noiseTokens.contains p)) := List.take_of_length_le hbound'
    have hcore : normCore (pyStrip (normalizeList l)) =
        if pyStrip (joinSpace (dropTrailingDigits
            ((pySplit (pyStrip (normalizeList l))).filter
              (fun p => !noiseTokens.contains p)))) = []
        then pyStrip (normalizeList l)
        else pyStrip (joinSpace (dropTrailingDigits
            ((pySplit (pyStrip (normalizeList l))).filter
              (fun p => !noiseTokens.contains p)))) := by
      simp only [normCore, hstrip, htake, if_false]
    rw [hcore]
    by_cases hkey : pyStrip (joinSpace (dropTrailingDigits
        ((pySplit (pyStrip (normalizeList l))).filter
          (fun p => !noiseTokens.contains p)))) = []
    · rw [if_pos hkey]
      have hPz : ∀ c ∈ pyStrip (normalizeList l), lowerChar c = c ∧ replaceSep c = c :=
        fun c hc => hPy c (mem_pyStrip hc)
      rw [normalizeList_eq_normCore hPz, pyStrip_idem, hcore, if_pos hkey]
    · rw [if_neg hkey]
      have hT' : ∀ t ∈ dropTrailingDigits ((pySplit (pyStrip (normalizeList l))).filter
          (fun p => !noiseTokens.contains p)),
          (t ≠ [] ∧ ∀ c ∈ t, isSpc c = false) ∧ (!noiseTokens.contains t) = true := by
        intro t ht
        unfold dropTrailingDigits at ht
        have h2 := List.mem_filter.mp (mem_dropRightWhile ht)
        exact ⟨pySplit_token_props t h2.1, h2.2⟩
      have hPz : ∀ c ∈ pyStrip (joinSpace (dropTrailingDigits
          ((pySplit (pyStrip (normalizeList l))).filter
            (fun p => !noiseTokens.contains p)))),
          lowerChar c = c ∧ replaceSep c = c := by
        intro c hc
        rcases mem_joinSpace (mem_pyStrip hc) with ⟨t, ht, hct⟩ | hsp
        · have ht1 : t ∈ pySplit (pyStrip (normalizeList l)) := by
            unfold dropTrailingDigits at ht
            exact (List.mem_filter.mp (mem_dropRightWhile ht)).1
          rcases pySplitAux_chars ht1 hct with h | h
          · exact hPy c (mem_pyStrip h)
          · cases h
        · rw [hsp]
          exact space_fix
      rw [normalizeList_eq_normCore hPz, pyStrip_idem]
      have hsplitz : pySplit (pyStrip (joinSpace (dropTrailingDigits
          ((pySplit (pyStrip (normalizeList l))).filter
            (fun p => !noiseTokens.contains p))))) =
          dropTrailingDigits ((pySplit (pyStrip (normalizeList l))).filter
            (fun p => !noiseTokens.contains p)) := by
        rw [pySplit_pyStrip]
        exact pySplit_joinSpace (fun t ht => (hT' t ht).1.1) (fun t ht => (hT' t ht).1.2)
      have hfilter : (dropTrailingDigits ((pySplit (pyStrip (normalizeList l))).filter
          (fun p => !noiseTokens.contains p))).filter (fun p => !noiseTokens.contains p) =
          dropTrailingDigits ((pySplit (pyStrip (normalizeList l))).filter
            (fun p => !noiseTokens.contains p)) :=
        List.filter_eq_self.mpr fun t ht => (hT' t ht).2
      have hdrop : dropTrailingDigits (dropTrailingDigits
          ((pySplit (pyStrip (normalizeList l))).filter
            (fun p => !noiseTokens.contains p))) =
          dropTrailingDigits ((pySplit (pyStrip (normalizeList l))).filter
            (fun p => !noiseTokens.contains p)) := by
        unfold dropTrailingDigits
        exact dropRightWhile_idem _ _
      simp only [normCore, hsplitz, hfilter, hdrop, htake, hkey, if_false]

/-! ## Claim C5: statements -/

/-- C5, counterexample: normalization is not idempotent.  For the input
`"-"` the separator becomes a space and every token is filtered away, so
the fallback returns `" "`; a second application strips it to `""`. -/
theorem C5_counterexample :
    _normalize_vendor (_normalize_vendor "-") ≠ _normalize_vendor "-" := by
  decide

/-- C5 (amended): vendor normalization is total — empty or null input
yields the empty string — but idempotent only from the second application
on: `normalize (normalize (normalize x)) = normalize (normalize x)` for
every string `x`, while `normalize (normalize x) = normalize x` fails for
some inputs. -/
theorem C5_amended :
    (∀ v : String,
      _normalize_vendor (_normalize_vendor (_normalize_vendor v)) =
        _normalize_vendor (_normalize_vendor v)) ∧
    _normalize_vendor "" = "" := by
  constructor
  · intro v
    unfold _normalize_vendor
    have h := normalizeList_stable v.toList
    simp only [String.toList, String.data]
    exact congrArg String.mk h
  · decide

end FinAutopilot
